import Mathlib

/-
Verification of the XLeRobot host (`software/src/robots/xlerobot/xlerobot_host.py`).

The file shallowly embeds the runtime logic of the host:
  * the observation value model and `ObservationStreamer._encode_observation`
    (python dicts become association lists over `String`, the cv2/base64 codec
    becomes an abstract `Codec` whose `imencode` may return a failure flag or
    raise),
  * the streamer queue, `publish`, `_send` and the `stop`/`_run` shutdown
    protocol as a small interleaved transition system,
  * the `main` control-loop watchdog as a step function over
    `{lastCmdTime, watchdogActive}` driven by per-iteration events and
    time samples,
  * the `json.loads` + `dict` + `send_action` command path of the loop,
    restricted to the JSON-object/number payloads the command channel carries.

Machine floats (`time.time()` seconds) are modelled as rationals; python
exceptions are modelled with `Except`, and a caught exception is a matched
`Except.error`.
-/

namespace XLeRobotHost

/-! ## Observation values

A python observation is `dict[str, object]`; the values the host manipulates
are raw camera frames, `None`, strings (the encoded frames) and other sensor
values (modelled as integers).  `F` is the type of raw frames. -/

inductive Obj (F : Type) where
  | pyNone
  | frame (f : F)
  | str (s : String)
  | intv (n : Int)
deriving DecidableEq, Repr

/-- An observation: a python dict as an association list (unique keys in
practice; insertion order is significant, as in python). -/
abbrev Obs (F : Type) := List (String × Obj F)

/-- The key set of an observation, in insertion order. -/
def keysOf {F : Type} (o : Obs F) : List String :=
  o.map Prod.fst

/-- `observation.get(key)` on a python dict. -/
def lookupObs {F : Type} (k : String) : Obs F → Option (Obj F)
  | [] => none
  | p :: t => if p.1 = k then some p.2 else lookupObs k t

/-- `encoded[key] = v` on a python dict whose key `key` may already be
present: the value is replaced in place, the key order is unchanged. -/
def setObs {F : Type} : Obs F → String → Obj F → Obs F
  | [], _, _ => []
  | p :: t, k, v => (if p.1 = k then (k, v) else p) :: setObs t k v

/-! ## The frame codec and `_encode_observation`

`cv2.imencode` either returns a pair `(ret, buffer)` or raises; `_encode_frame`
maps `ret = False` to the empty string and a successful encode to the base64
transport string.  A raise inside the worker surfaces at `future.result()`. -/

/-- Outcome of `cv2.imencode(".jpg", frame, params)`: a `(ret, buffer)` pair,
or an exception. -/
inductive ImEncodeResult (B : Type) where
  | retBuf (ret : Bool) (buf : B)
  | raised
deriving DecidableEq

/-- The external image codec: `imencode` with its two outcomes, and
`base64.b64encode(...).decode("utf-8")`. -/
structure Codec (F B : Type) where
  imencode : F → ImEncodeResult B
  b64encode : B → String

/-- `ObservationStreamer._encode_frame` (lines 81-85): returns `""` when
`imencode` reports failure, the base64 string on success, and propagates an
`imencode` exception (to be caught at `future.result()`). -/
def encode_frame {F B : Type} (c : Codec F B) (f : F) : Except Unit String :=
  match c.imencode f with
  | ImEncodeResult.raised => Except.error ()
  | ImEncodeResult.retBuf ret buf =>
      if ret then Except.ok (c.b64encode buf) else Except.ok ""

/-- The work submitted to the encoder pool for a non-`None` camera value:
`_encode_frame(frame)`.  A non-frame object makes `cv2.imencode` raise. -/
def encodeTask {F B : Type} (c : Codec F B) (v : Obj F) : Except Unit String :=
  match v with
  | Obj.frame f => encode_frame c f
  | _ => Except.error ()

/-- `future.result()` wrapped in the `try/except` of lines 100-105: an
exception from the task is caught and replaced by `""`. -/
def futureResult : Except Unit String → String
  | Except.ok s => s
  | Except.error _ => ""

/-- Handling of one camera key inside `_encode_observation` (lines 92-105),
reading the original `observation` and updating the copy `acc`:
a missing key is skipped, a `None` frame becomes `""`, and any other value is
encoded with the per-camera failure fallback to `""`. -/
def encStep {F B : Type} (c : Codec F B) (obs : Obs F) (acc : Obs F)
    (key : String) : Obs F :=
  match lookupObs key obs with
  | none => acc
  | some Obj.pyNone => setObs acc key (Obj.str "")
  | some v => setObs acc key (Obj.str (futureResult (encodeTask c v)))

/-- `ObservationStreamer._encode_observation` (lines 87-106).  The encoder
pool exists iff the camera key set is non-empty (lines 44-48), so with zero
cameras the copied observation is returned unchanged. -/
def encode_observation {F B : Type} (ck : List String) (c : Codec F B)
    (obs : Obs F) : Obs F :=
  if ck.isEmpty then obs else ck.foldl (encStep c obs) obs

/-- Size of the encoder pool created in `__init__` (lines 44-48):
`max(1, len(camera_keys))` workers when there are cameras, no pool otherwise. -/
def encoderPoolWorkers (ck : List String) : Option Nat :=
  if ck.isEmpty then none else some (max 1 ck.length)

/-! ## The streamer queue, `publish`, `_send`, and shutdown

`self._queue = queue.Queue(maxsize=2)` holds observations or the `None`
sentinel used by `stop()`.  The zmq observation socket's non-blocking send
has two outcomes: delivered, or `zmq.Again` (no client). -/

/-- An element of the streamer backlog queue: `None` (the shutdown sentinel)
or an observation. -/
inductive QItem (F : Type) where
  | sentinel
  | obsItem (o : Obs F)
deriving DecidableEq

/-- Outcome of `socket.send_string(..., flags=zmq.NOBLOCK)` for the
connectivity cases the streamer handles. -/
inductive SendOutcome where
  | sent
  | wouldBlock
deriving DecidableEq

/-- The raw non-blocking zmq send: `zmq.Again` is an exception. -/
def sendString : SendOutcome → Except Unit Unit
  | SendOutcome.sent => Except.ok ()
  | SendOutcome.wouldBlock => Except.error ()

/-- `ObservationStreamer._send` (lines 108-112): the `zmq.Again` exception is
caught and the observation dropped with a log, so `_send` always returns.
The boolean records whether the payload was actually transmitted. -/
def sendObs (outcome : SendOutcome) : Bool :=
  match sendString outcome with
  | Except.ok _ => true
  | Except.error _ => false

/-- What one `publish` call did. -/
inductive PubEffect where
  | sentNow (transmitted : Bool)
  | enqueued
  | droppedFull
deriving DecidableEq

/-- `queue.put_nowait` on the `maxsize=2` backlog queue: `none` models the
`queue.Full` exception. -/
def put_nowait {F : Type} (q : List (QItem F)) (i : QItem F) :
    Option (List (QItem F)) :=
  if q.length < 2 then some (q ++ [i]) else none

/-- `ObservationStreamer.publish` (lines 72-79): with no cameras the
observation is sent synchronously via `_send`; otherwise a non-blocking
enqueue is attempted and `queue.Full` is caught, dropping the observation
with a debug log.  The function is total: no exception escapes. -/
def publish {F : Type} (ck : List String) (outcome : SendOutcome)
    (q : List (QItem F)) (o : Obs F) : List (QItem F) × PubEffect :=
  if ck.isEmpty then (q, PubEffect.sentNow (sendObs outcome))
  else
    match put_nowait q (QItem.obsItem o) with
    | some q' => (q', PubEffect.enqueued)
    | none => (q, PubEffect.droppedFull)

/-- Program counter of the background `_run` task (lines 114-126). -/
inductive RunPC (F : Type) where
  /-- at the `while not self._stop_event.is_set()` test (line 115). -/
  | check
  /-- executing `_encode_observation` + `_send` for `o` (lines 122-126). -/
  | encodeSend (o : Obs F)
  /-- `_run` has returned; the thread is finishing/finished. -/
  | exited
deriving DecidableEq

/-- Program counter of the `stop()` caller (lines 59-70). -/
inductive StopPC where
  /-- `stop()` not yet invoked. -/
  | notCalled
  /-- inside the `while True: put(None, timeout=0.1)` retry loop (62-67). -/
  | putLoop
  /-- at `self._thread.join()` (line 68). -/
  | joinWait
  /-- at `self._encoder_pool.shutdown(wait=True)` (lines 69-70). -/
  | shutdownPool
  /-- `stop()` has returned. -/
  | done
deriving DecidableEq

/-- Joint state of the backlog queue, the stop event, the background task and
the `stop()` caller. -/
structure StreamSys (F : Type) where
  queue : List (QItem F)
  stopEvent : Bool
  run : RunPC F
  stop : StopPC
deriving DecidableEq

def isExited {F : Type} : RunPC F → Bool
  | RunPC.exited => true
  | _ => false

/-- One step of the `_run` task (lines 114-126): the loop exits as soon as the
stop event is observed at the top of the loop; otherwise `get(timeout=0.1)`
either times out on an empty queue (and the loop continues), pops the
sentinel (and the loop breaks), or pops an observation to encode and send. -/
def runStep {F : Type} (s : StreamSys F) : StreamSys F :=
  match s.run with
  | RunPC.exited => s
  | RunPC.encodeSend _ => { s with run := RunPC.check }
  | RunPC.check =>
      if s.stopEvent then { s with run := RunPC.exited }
      else
        match s.queue with
        | [] => s
        | QItem.sentinel :: rest => { s with queue := rest, run := RunPC.exited }
        | QItem.obsItem o :: rest =>
            { s with queue := rest, run := RunPC.encodeSend o }

/-- One step of the `stop()` caller (lines 59-70): set the event and test
`is_alive` (60-61); retry `put(None, timeout=0.1)` until it succeeds, each
failed attempt raising `queue.Full` (62-67); `join` the task (68); then shut
the encoder pool down (69-70). -/
def stopStep {F : Type} (s : StreamSys F) : StreamSys F :=
  match s.stop with
  | StopPC.notCalled =>
      let s' := { s with stopEvent := true }
      if isExited s.run then { s' with stop := StopPC.shutdownPool }
      else { s' with stop := StopPC.putLoop }
  | StopPC.putLoop =>
      if s.queue.length < 2 then
        { s with queue := s.queue ++ [QItem.sentinel], stop := StopPC.joinWait }
      else s
  | StopPC.joinWait =>
      if isExited s.run then { s with stop := StopPC.shutdownPool } else s
  | StopPC.shutdownPool => { s with stop := StopPC.done }
  | StopPC.done => s

/-- Interleaving: `true` schedules the background task, `false` the `stop()`
caller. -/
def sysStep {F : Type} (s : StreamSys F) : Bool → StreamSys F
  | true => runStep s
  | false => stopStep s

/-- Run a finite schedule of interleaved steps. -/
def sysExec {F : Type} (s : StreamSys F) (sched : List Bool) : StreamSys F :=
  sched.foldl sysStep s

/-! ## The control loop and its watchdog (`main`, lines 169-196)

`time.time()` samples are rationals.  Per iteration the loop makes one
non-blocking receive attempt; a successfully decoded command is forwarded by
`robot.send_action(data)` (line 181) and only then are `last_cmd_time` and
`watchdog_active` updated (lines 182-183), so any exception in the
decode-or-forward sequence skips the update (caught at lines 184-188).
The watchdog test (line 191) uses a fresh time sample. -/

/-- Watchdog state carried across loop iterations (lines 169-170). -/
structure LoopState where
  lastCmdTime : ℚ
  watchdogActive : Bool
deriving DecidableEq, Repr

/-- What the receive/decode/forward sequence (lines 179-181) did in one
iteration: `zmq.Again` (no message), a decoded command whose forward either
returned or raised, or a receive/decode exception. -/
inductive CmdEvent (C : Type) where
  | again
  | received (c : C) (sendOk : Bool)
  | decodeError
deriving DecidableEq

/-- One iteration's inputs: the command event, the `time.time()` sample taken
at line 182 (used only when the command was forwarded), and the sample taken
at line 190 for the watchdog test. -/
structure IterInput (C : Type) where
  ev : CmdEvent C
  tCmd : ℚ
  tChk : ℚ
deriving DecidableEq

/-- Is the event a successfully decoded and successfully forwarded command? -/
def isSuccess {C : Type} : CmdEvent C → Bool
  | CmdEvent.received _ true => true
  | _ => false

/-- Lines 178-188: the `try` block updates `last_cmd_time` and clears
`watchdog_active` only after `send_action` returned; every exception path
leaves the state unchanged. -/
def applyCommand {C : Type} (st : LoopState) (inp : IterInput C) : LoopState :=
  match inp.ev with
  | CmdEvent.received _ true => { lastCmdTime := inp.tCmd, watchdogActive := false }
  | _ => st

/-- One full iteration of the watchdog logic (lines 178-196): command
handling, then the transition test
`now - last_cmd_time > watchdog_timeout_ms / 1000 and not watchdog_active`.
The returned boolean is `true` iff this iteration called `robot.stop_base()`
(line 196). -/
def loopStep {C : Type} (wd : ℚ) (st : LoopState) (inp : IterInput C) :
    LoopState × Bool :=
  if wd / 1000 < inp.tChk - (applyCommand st inp).lastCmdTime ∧
      (applyCommand st inp).watchdogActive = false then
    ({ applyCommand st inp with watchdogActive := true }, true)
  else (applyCommand st inp, false)

/-- Iterate the loop over a list of per-iteration inputs. -/
def runLoop {C : Type} (wd : ℚ) : LoopState → List (IterInput C) → LoopState
  | st, [] => st
  | st, inp :: t => runLoop wd (loopStep wd st inp).1 t

/-- Number of `robot.stop_base()` calls made over a list of iterations. -/
def stopCount {C : Type} (wd : ℚ) : LoopState → List (IterInput C) → Nat
  | _, [] => 0
  | st, inp :: t =>
      (if (loopStep wd st inp).2 then 1 else 0) + stopCount wd (loopStep wd st inp).1 t

/-- Number of successfully forwarded commands in a list of iterations. -/
def countSuccess {C : Type} : List (IterInput C) → Nat
  | [] => 0
  | inp :: t => (if isSuccess inp.ev then 1 else 0) + countSuccess t

/-- The timestamp of the most recent successfully forwarded command after a
list of iterations, starting from timestamp `t0` (mirrors `last_cmd_time`). -/
def lastCmdAfter {C : Type} (t0 : ℚ) : List (IterInput C) → ℚ
  | [] => t0
  | inp :: t =>
      lastCmdAfter (match inp.ev with
        | CmdEvent.received _ true => inp.tCmd
        | _ => t0) t

/-! ## The command channel payload path (lines 179-181)

`data = dict(json.loads(msg))` for the JSON-object payloads the command
channel carries (objects mapping actuator names to numbers), then
`robot.send_action(data)`.  The JSON subset the commands use is modelled by
an executable decoder: objects whose values are (possibly negative, possibly
fractional) decimal numbers, with no string escapes. -/

/-- Skip JSON whitespace. -/
def skipWs : List Char → List Char
  | [] => []
  | c :: t => if c = ' ' ∨ c = '\n' ∨ c = '\t' ∨ c = '\r' then skipWs t else c :: t

def digitsAux : List Char → Nat → Nat → Nat × Nat × List Char
  | [], v, n => (v, n, [])
  | c :: t, v, n =>
      if c.isDigit then digitsAux t (10 * v + (c.toNat - 48)) (n + 1)
      else (v, n, c :: t)

/-- Read one or more decimal digits: value, digit count, rest. -/
def parseDigits (l : List Char) : Option (Nat × Nat × List Char) :=
  match l with
  | [] => none
  | c :: _ => if c.isDigit then some (digitsAux l 0 0) else none

/-- Read a JSON number (integer or decimal fraction) as a rational. -/
def parseNumber (l : List Char) : Option (ℚ × List Char) :=
  let sign := match l with
    | c :: t => if c = '-' then (true, t) else (false, l)
    | [] => (false, l)
  match parseDigits sign.2 with
  | none => none
  | some (ip, _, l2) =>
      match l2 with
      | c :: t2 =>
          if c = '.' then
            match parseDigits t2 with
            | none => none
            | some (fp, fn, l3) =>
                let q : ℚ := (ip : ℚ) + (fp : ℚ) / (((10 ^ fn : Nat)) : ℚ)
                some (if sign.1 then -q else q, l3)
          else some (if sign.1 then -(ip : ℚ) else (ip : ℚ), c :: t2)
      | [] => some (if sign.1 then -(ip : ℚ) else (ip : ℚ), [])

def takeUntilQuote : List Char → Option (List Char × List Char)
  | [] => none
  | c :: t =>
      if c = '"' then some ([], t)
      else
        match takeUntilQuote t with
        | none => none
        | some (s, r) => some (c :: s, r)

/-- Read a double-quoted key (no escapes). -/
def parseKeyStr (l : List Char) : Option (String × List Char) :=
  match l with
  | [] => none
  | c :: t =>
      if c = '"' then (takeUntilQuote t).map (fun p => (String.mk p.1, p.2))
      else none

/-- Python dict insertion: an existing key keeps its position and gets the
new value, a new key is appended. -/
def insertUpdate (d : List (String × ℚ)) (k : String) (v : ℚ) :
    List (String × ℚ) :=
  match d with
  | [] => [(k, v)]
  | p :: t => if p.1 = k then (k, v) :: t else p :: insertUpdate t k v

/-- Read `"key": number` pairs separated by commas, accumulating into a dict
with python-dict duplicate-key semantics (as `json.loads` does). -/
def parsePairs : Nat → List Char → List (String × ℚ) →
    Option (List (String × ℚ) × List Char)
  | 0, _, _ => none
  | fuel + 1, l, acc =>
      match parseKeyStr (skipWs l) with
      | none => none
      | some (k, l1) =>
          match skipWs l1 with
          | [] => none
          | c2 :: l2 =>
              if c2 = ':' then
                match parseNumber (skipWs l2) with
                | none => none
                | some (v, l3) =>
                    match skipWs l3 with
                    | [] => some (insertUpdate acc k v, [])
                    | c4 :: l4 =>
                        if c4 = ',' then parsePairs fuel l4 (insertUpdate acc k v)
                        else some (insertUpdate acc k v, c4 :: l4)
              else none

/-- `json.loads` on the JSON-object payloads of the command channel:
`none` models a raised `JSONDecodeError` (caught at line 187). -/
def jsonLoadsObj (s : String) : Option (List (String × ℚ)) :=
  match skipWs s.data with
  | [] => none
  | c :: t =>
      if c = '\x7b' then
        match skipWs t with
        | [] => none
        | c2 :: t2 =>
            if c2 = '\x7d' then (if skipWs t2 = [] then some [] else none)
            else
              match parsePairs (t.length + 1) t [] with
              | none => none
              | some (d, rest) =>
                  match skipWs rest with
                  | [] => none
                  | c3 :: t3 =>
                      if c3 = '\x7d' then (if skipWs t3 = [] then some d else none)
                      else none
      else none

/-- `dict(x)` applied to an already-decoded dict: rebuilds the mapping by
inserting every pair in order. -/
def dictCopy (d : List (String × ℚ)) : List (String × ℚ) :=
  d.foldl (fun acc p => insertUpdate acc p.1 p.2) []

/-- Lines 179-181: the argument `robot.send_action` is called with, if any.
`none` input models `zmq.Again`; a failed decode forwards nothing. -/
def sendActionArg (recv : Option String) : Option (List (String × ℚ)) :=
  match recv with
  | none => none
  | some m =>
      match jsonLoadsObj m with
      | none => none
      | some d => some (dictCopy d)

/-! ## Concrete data used by the witnesses -/

/-- A concrete codec on `Nat` frames whose encode always succeeds. -/
def codecW : Codec Nat Nat :=
  { imencode := fun f => ImEncodeResult.retBuf true f
    b64encode := fun _ => "amtqcGVn" }

/-- Observation for the C1 witness: camera `camA` absent (`None`), camera
`camB` a raw frame, plus a non-camera reading. -/
def obsC1W : Obs Nat :=
  [("camA", Obj.pyNone), ("camB", Obj.frame 5), ("battery", Obj.intv 87)]

/-- Observation for the C7 witness. -/
def obsC7W : Obs Nat :=
  [("cam0", Obj.frame 3), ("battery", Obj.intv 87)]

/-- A full backlog queue (two pending observations) for the C6 witness. -/
def queueC6W : List (QItem Nat) :=
  [QItem.obsItem [("battery", Obj.intv 1)], QItem.obsItem [("battery", Obj.intv 2)]]

/-- The observation dropped by the C6 witness. -/
def obsC6W : Obs Nat :=
  [("battery", Obj.intv 3)]

def obsStop1 : Obs Nat := [("cam0", Obj.intv 1)]

def obsStop2 : Obs Nat := [("cam0", Obj.intv 2)]

def obsStop3 : Obs Nat := [("cam0", Obj.intv 3)]

/-- The streamer state in which `stop()` is invoked for C5: the background
task is mid-encode on `obsStop1` while the last two published observations
fill the `maxsize=2` backlog queue (the queue contents are produced by two
`publish` calls on an empty queue). -/
def stopScenario : StreamSys Nat :=
  { queue := (publish ["cam0"] SendOutcome.sent
        ((publish ["cam0"] SendOutcome.sent [] obsStop2).1) obsStop3).1
    stopEvent := false
    run := RunPC.encodeSend obsStop1
    stop := StopPC.notCalled }

/-- Silent trace for the C2 witness: three iterations with no inbound
message, checked at times 0.5s, 2s and 3s against a 1000 ms timeout. -/
def silenceW : List (IterInput Nat) :=
  [⟨CmdEvent.again, 0, 1/2⟩, ⟨CmdEvent.again, 0, 2⟩, ⟨CmdEvent.again, 0, 3⟩]

/-- Fast-command trace for the C4 witness: successful commands at 0.5s and
1.4s, every watchdog check within 1000 ms of the latest command. -/
def fastCmdsW : List (IterInput Nat) :=
  [⟨CmdEvent.received 7 true, 1/2, 3/5⟩, ⟨CmdEvent.again, 0, 1⟩,
   ⟨CmdEvent.received 8 true, 7/5, 3/2⟩]

/-! ## Association-list lemmas -/

theorem keysOf_cons {F : Type} (p : String × Obj F) (t : Obs F) :
    keysOf (p :: t) = p.1 :: keysOf t := rfl

theorem keysOf_setObs {F : Type} (l : Obs F) (k : String) (v : Obj F) :
    keysOf (setObs l k v) = keysOf l := by
  induction l with
  | nil => rfl
  | cons p t ih =>
    by_cases hp : p.1 = k
    · simp only [setObs, if_pos hp, keysOf_cons, ih]
      rw [hp]
    · simp only [setObs, if_neg hp, keysOf_cons, ih]

theorem lookupObs_setObs_ne {F : Type} (l : Obs F) (k k' : String) (v : Obj F)
    (h : k' ≠ k) : lookupObs k' (setObs l k v) = lookupObs k' l := by
  induction l with
  | nil => rfl
  | cons p t ih =>
    by_cases hp : p.1 = k
    · have hk : ¬ k = k' := fun hkk => h hkk.symm
      have hpk : ¬ p.1 = k' := by rw [hp]; exact hk
      simp only [setObs, if_pos hp, lookupObs, if_neg hk, if_neg hpk, ih]
    · simp only [setObs, if_neg hp, lookupObs, ih]

theorem lookupObs_setObs_self {F : Type} (l : Obs F) (k : String) (v : Obj F)
    (h : k ∈ keysOf l) : lookupObs k (setObs l k v) = some v := by
  induction l with
  | nil => simp [keysOf] at h
  | cons p t ih =>
    by_cases hp : p.1 = k
    · simp [setObs, hp, lookupObs]
    · have ht : k ∈ keysOf t := by
        rcases (by simpa [keysOf] using h) with h1 | h1
        · exact absurd h1.symm hp
        · simpa [keysOf] using h1
      simp [setObs, hp, lookupObs, ih ht]

theorem mem_keysOf_of_lookupObs {F : Type} {l : Obs F} {k : String} {v : Obj F}
    (h : lookupObs k l = some v) : k ∈ keysOf l := by
  induction l with
  | nil => simp [lookupObs] at h
  | cons p t ih =>
    by_cases hp : p.1 = k
    · rw [keysOf_cons, hp]
      exact List.mem_cons_self _ _
    · simp only [lookupObs, hp, if_false] at h
      rw [keysOf_cons]
      exact List.mem_cons_of_mem _ (ih h)

/-! ## Lemmas about `_encode_observation` -/

theorem keysOf_encStep {F B : Type} (c : Codec F B) (obs acc : Obs F)
    (key : String) : keysOf (encStep c obs acc key) = keysOf acc := by
  unfold encStep
  split
  · rfl
  · exact keysOf_setObs acc key _
  · exact keysOf_setObs acc key _

theorem lookupObs_encStep_ne {F B : Type} (c : Codec F B) (obs acc : Obs F)
    {k key : String} (h : k ≠ key) :
    lookupObs k (encStep c obs acc key) = lookupObs k acc := by
  unfold encStep
  split
  · rfl
  · exact lookupObs_setObs_ne acc key k _ h
  · exact lookupObs_setObs_ne acc key k _ h

theorem keysOf_foldl_encStep {F B : Type} (c : Codec F B) (obs : Obs F) :
    ∀ (ck : List String) (acc : Obs F),
      keysOf (ck.foldl (encStep c obs) acc) = keysOf acc := by
  intro ck
  induction ck with
  | nil => intro acc; rfl
  | cons x t ih =>
    intro acc
    rw [List.foldl_cons, ih, keysOf_encStep]

theorem lookupObs_foldl_encStep_notmem {F B : Type} (c : Codec F B)
    (obs : Obs F) :
    ∀ (ck : List String) (acc : Obs F) (k : String), k ∉ ck →
      lookupObs k (ck.foldl (encStep c obs) acc) = lookupObs k acc := by
  intro ck
  induction ck with
  | nil => intro acc k _; rfl
  | cons x t ih =>
    intro acc k hk
    have hx : k ≠ x := fun h => hk (h ▸ List.mem_cons_self x t)
    have ht : k ∉ t := fun h => hk (List.mem_cons_of_mem x h)
    rw [List.foldl_cons, ih _ k ht, lookupObs_encStep_ne c obs acc hx]

theorem lookupObs_encStep_self {F B : Type} (c : Codec F B) (obs acc : Obs F)
    {k : String} {v : Obj F} (hv : lookupObs k obs = some v)
    (hkeys : keysOf acc = keysOf obs) :
    ∃ s, lookupObs k (encStep c obs acc k) = some (Obj.str s) := by
  have hmem : k ∈ keysOf acc := hkeys ▸ mem_keysOf_of_lookupObs hv
  unfold encStep
  rw [hv]
  cases v with
  | pyNone => exact ⟨"", lookupObs_setObs_self acc k _ hmem⟩
  | frame f => exact ⟨_, lookupObs_setObs_self acc k _ hmem⟩
  | str s => exact ⟨_, lookupObs_setObs_self acc k _ hmem⟩
  | intv n => exact ⟨_, lookupObs_setObs_self acc k _ hmem⟩

theorem lookupObs_foldl_encStep_mem {F B : Type} (c : Codec F B)
    (obs : Obs F) :
    ∀ (ck : List String) (acc : Obs F) (k : String) (v : Obj F), k ∈ ck →
      lookupObs k obs = some v → keysOf acc = keysOf obs →
      ∃ s, lookupObs k (ck.foldl (encStep c obs) acc) = some (Obj.str s) := by
  intro ck
  induction ck with
  | nil => intro acc k v hk; exact absurd hk (List.not_mem_nil k)
  | cons x t ih =>
    intro acc k v hk hv hkeys
    by_cases hkt : k ∈ t
    · exact ih (encStep c obs acc x) k v hkt hv
        (by rw [keysOf_encStep]; exact hkeys)
    · have hkx : k = x := by
        rcases List.mem_cons.mp hk with h | h
        · exact h
        · exact absurd h hkt
      subst hkx
      obtain ⟨s, hs⟩ := lookupObs_encStep_self c obs acc hv hkeys
      refine ⟨s, ?_⟩
      rw [List.foldl_cons, lookupObs_foldl_encStep_notmem c obs t _ k hkt, hs]

/-! ## Claim theorems -/

/-- C1: `_encode_observation` over camera keys `{A, B}` on an observation
where `A`'s raw frame is `None` maps `A` to `""` and `B` to the transport
string produced by `_encode_frame`; when encoding `B` fails (either a
`False` return flag, which `_encode_frame` itself maps to `""`, or an
exception, caught around `future.result()`), `B` maps to `""`.  The
embedding is a total function: every exception path of the source is caught
inside `_encode_observation`, so no exception escapes. -/
theorem encodeAll_missing_and_failing_frames {F B : Type} (c : Codec F B)
    (obs : Obs F) (A Bk : String) (f : F)
    (hAB : A ≠ Bk)
    (hA : lookupObs A obs = some Obj.pyNone)
    (hB : lookupObs Bk obs = some (Obj.frame f)) :
    lookupObs A (encode_observation [A, Bk] c obs) = some (Obj.str "") ∧
    lookupObs Bk (encode_observation [A, Bk] c obs)
      = some (Obj.str (futureResult (encode_frame c f))) ∧
    (∀ s, encode_frame c f = Except.ok s →
      lookupObs Bk (encode_observation [A, Bk] c obs) = some (Obj.str s)) ∧
    (encode_frame c f = Except.error () →
      lookupObs Bk (encode_observation [A, Bk] c obs) = some (Obj.str "")) := by
  have hmemA : A ∈ keysOf obs := mem_keysOf_of_lookupObs hA
  have hmemB : Bk ∈ keysOf obs := mem_keysOf_of_lookupObs hB
  have e0 : encode_observation [A, Bk] c obs
      = encStep c obs (encStep c obs obs A) Bk := rfl
  have e1 : encStep c obs obs A = setObs obs A (Obj.str "") := by
    unfold encStep
    rw [hA]
  have e2 : encStep c obs (setObs obs A (Obj.str "")) Bk
      = setObs (setObs obs A (Obj.str ""))
          Bk (Obj.str (futureResult (encode_frame c f))) := by
    unfold encStep
    rw [hB]
    rfl
  have hBA : Bk ≠ A := fun h => hAB h.symm
  have hAfinal : lookupObs A (encode_observation [A, Bk] c obs)
      = some (Obj.str "") := by
    rw [e0, e1, e2, lookupObs_setObs_ne _ _ _ _ hAB]
    exact lookupObs_setObs_self obs A _ hmemA
  have hBfinal : lookupObs Bk (encode_observation [A, Bk] c obs)
      = some (Obj.str (futureResult (encode_frame c f))) := by
    rw [e0, e1, e2]
    exact lookupObs_setObs_self _ Bk _ (by rw [keysOf_setObs]; exact hmemB)
  refine ⟨hAfinal, hBfinal, ?_, ?_⟩
  · intro s hs
    rw [hBfinal, hs]
    rfl
  · intro hfail
    rw [hBfinal, hfail]
    rfl

/-- Witness for C1 at a concrete observation and an always-succeeding codec. -/
theorem encodeAll_missing_and_failing_frames_witness :
    lookupObs "camA" (encode_observation ["camA", "camB"] codecW obsC1W)
      = some (Obj.str "") ∧
    lookupObs "camB" (encode_observation ["camA", "camB"] codecW obsC1W)
      = some (Obj.str (futureResult (encode_frame codecW 5))) :=
  ⟨(encodeAll_missing_and_failing_frames codecW obsC1W "camA" "camB" 5
      (by decide) (by decide) (by decide)).1,
   (encodeAll_missing_and_failing_frames codecW obsC1W "camA" "camB" 5
      (by decide) (by decide) (by decide)).2.1⟩

/-- C7: `_encode_observation` preserves the key set of the observation, keeps
every non-camera entry at its original value, and replaces every camera entry
that is present with a string (the encoded frame or `""`). -/
theorem encodeAll_frame_effect {F B : Type} (ck : List String) (c : Codec F B)
    (obs : Obs F) :
    keysOf (encode_observation ck c obs) = keysOf obs ∧
    (∀ k, k ∉ ck →
      lookupObs k (encode_observation ck c obs) = lookupObs k obs) ∧
    (∀ k v, k ∈ ck → lookupObs k obs = some v →
      ∃ s, lookupObs k (encode_observation ck c obs) = some (Obj.str s)) := by
  unfold encode_observation
  by_cases hck : ck.isEmpty
  · have hnil : ck = [] := List.isEmpty_iff.mp hck
    subst hnil
    refine ⟨by simp, fun k _ => by simp, fun k v hk => ?_⟩
    exact absurd hk (List.not_mem_nil k)
  · simp only [hck, if_false]
    exact ⟨keysOf_foldl_encStep c obs ck obs,
      fun k hk => lookupObs_foldl_encStep_notmem c obs ck obs k hk,
      fun k v hk hv => lookupObs_foldl_encStep_mem c obs ck obs k v hk hv rfl⟩

/-- Witness for C7 at a concrete camera set and observation. -/
theorem encodeAll_frame_effect_witness :
    keysOf (encode_observation ["cam0"] codecW obsC7W) = keysOf obsC7W ∧
    lookupObs "battery" (encode_observation ["cam0"] codecW obsC7W)
      = lookupObs "battery" obsC7W ∧
    ∃ s, lookupObs "cam0" (encode_observation ["cam0"] codecW obsC7W)
      = some (Obj.str s) :=
  ⟨(encodeAll_frame_effect ["cam0"] codecW obsC7W).1,
   (encodeAll_frame_effect ["cam0"] codecW obsC7W).2.1 "battery" (by decide),
   (encodeAll_frame_effect ["cam0"] codecW obsC7W).2.2 "cam0" (Obj.frame 3)
     (by decide) (by decide)⟩

/-- C8: with an empty camera key set `_encode_observation` is the identity
(the pool test at line 89 short-circuits on the copied dict) and `__init__`
creates no encoder pool (lines 44-48). -/
theorem encodeAll_identity_zero_cameras {F B : Type} (c : Codec F B)
    (obs : Obs F) :
    encode_observation [] c obs = obs ∧ encoderPoolWorkers [] = none :=
  ⟨rfl, rfl⟩

/-- C10: on the zero-camera path `publish` sends synchronously through
`_send`, whose `try/except zmq.Again` absorbs the would-block outcome, so
`publish` is a total function of the send outcome: it returns the unchanged
queue and a `sentNow` effect both when the payload was transmitted and when
no client was connected (the observation is then dropped with a log). -/
theorem publish_zero_cameras_no_raise {F : Type} (outcome : SendOutcome)
    (q : List (QItem F)) (o : Obs F) :
    publish [] outcome q o = (q, PubEffect.sentNow (sendObs outcome)) ∧
    sendObs SendOutcome.wouldBlock = false ∧
    sendObs SendOutcome.sent = true :=
  ⟨rfl, rfl, rfl⟩

/-! ### Invariant: an observation outside the queue is never encoded -/

theorem sysStep_not_encoding {F : Type} (o : Obs F) (s : StreamSys F)
    (b : Bool) (hq : QItem.obsItem o ∉ s.queue)
    (hr : s.run ≠ RunPC.encodeSend o) :
    QItem.obsItem o ∉ (sysStep s b).queue ∧
    (sysStep s b).run ≠ RunPC.encodeSend o := by
  obtain ⟨q, ev, run, stop⟩ := s
  have hq' : QItem.obsItem o ∉ q := hq
  have hr' : run ≠ RunPC.encodeSend o := hr
  cases b
  case false =>
    cases stop
    case notCalled =>
      dsimp only [sysStep, stopStep]
      by_cases hex : isExited run = true
      · rw [if_pos hex]; exact ⟨hq', hr'⟩
      · rw [if_neg hex]; exact ⟨hq', hr'⟩
    case putLoop =>
      dsimp only [sysStep, stopStep]
      by_cases hlen : q.length < 2
      · rw [if_pos hlen]
        refine ⟨?_, hr'⟩
        intro hmem
        rcases List.mem_append.mp hmem with h | h
        · exact hq' h
        · simp at h
      · rw [if_neg hlen]; exact ⟨hq', hr'⟩
    case joinWait =>
      dsimp only [sysStep, stopStep]
      by_cases hex : isExited run = true
      · rw [if_pos hex]; exact ⟨hq', hr'⟩
      · rw [if_neg hex]; exact ⟨hq', hr'⟩
    case shutdownPool => exact ⟨hq', hr'⟩
    case done => exact ⟨hq', hr'⟩
  case true =>
    cases run
    case exited => exact ⟨hq', hr'⟩
    case encodeSend o1 =>
      exact ⟨hq', fun h => RunPC.noConfusion h⟩
    case check =>
      dsimp only [sysStep, runStep]
      by_cases hev : ev = true
      · rw [if_pos hev]
        exact ⟨hq', fun h => RunPC.noConfusion h⟩
      · rw [if_neg hev]
        cases q with
        | nil => exact ⟨hq', hr'⟩
        | cons head rest =>
          cases head with
          | sentinel =>
            exact ⟨fun hmem => hq' (List.mem_cons_of_mem _ hmem),
              fun h => RunPC.noConfusion h⟩
          | obsItem o2 =>
            refine ⟨fun hmem => hq' (List.mem_cons_of_mem _ hmem), fun h => ?_⟩
            injection h with h2
            subst h2
            exact hq' (List.mem_cons_self _ _)

theorem sysExec_not_encoding {F : Type} (o : Obs F) :
    ∀ (sched : List Bool) (s : StreamSys F),
      QItem.obsItem o ∉ s.queue → s.run ≠ RunPC.encodeSend o →
      (sysExec s sched).run ≠ RunPC.encodeSend o := by
  intro sched
  induction sched with
  | nil => intro s _ hr; exact hr
  | cons b t ih =>
    intro s hq hr
    have h := sysStep_not_encoding o s b hq hr
    exact ih (sysStep s b) h.1 h.2

/-- C6: `publish` on a full backlog queue (capacity 2) catches `queue.Full`
and returns with the queue unchanged — the caller is neither blocked nor
thrown at, the new observation is dropped — and under any subsequent
interleaving of the background task and `stop()` the dropped observation is
never picked up for encoding (it is outside the queue, the only source of
encode work). -/
theorem publish_full_queue_drops {F : Type} (ck : List String)
    (outcome : SendOutcome) (q : List (QItem F)) (o : Obs F)
    (hck : ck ≠ []) (hfull : 2 ≤ q.length) :
    publish ck outcome q o = (q, PubEffect.droppedFull) ∧
    (∀ (ev : Bool) (rpc : RunPC F) (spc : StopPC) (sched : List Bool),
      QItem.obsItem o ∉ q → rpc ≠ RunPC.encodeSend o →
      (sysExec ⟨(publish ck outcome q o).1, ev, rpc, spc⟩ sched).run
        ≠ RunPC.encodeSend o) := by
  have h1 : ck.isEmpty = false := by
    cases ck with
    | nil => exact absurd rfl hck
    | cons a t => rfl
  have hpub : publish ck outcome q o = (q, PubEffect.droppedFull) := by
    unfold publish put_nowait
    rw [h1]
    have h2 : ¬ q.length < 2 := not_lt.mpr hfull
    simp [h2]
  refine ⟨hpub, ?_⟩
  intro ev rpc spc sched hnq hnr
  rw [hpub]
  exact sysExec_not_encoding o sched ⟨q, ev, rpc, spc⟩ hnq hnr

/-- Witness for C6: a concrete full queue; the dropped observation is not
reachable by the background task under a concrete schedule. -/
theorem publish_full_queue_drops_witness :
    publish ["cam0"] SendOutcome.sent queueC6W obsC6W
      = (queueC6W, PubEffect.droppedFull) ∧
    (sysExec ⟨(publish ["cam0"] SendOutcome.sent queueC6W obsC6W).1, false,
        RunPC.check, StopPC.notCalled⟩ [true, false, true]).run
      ≠ RunPC.encodeSend obsC6W :=
  ⟨(publish_full_queue_drops ["cam0"] SendOutcome.sent queueC6W obsC6W
      (by decide) (by decide)).1,
   (publish_full_queue_drops ["cam0"] SendOutcome.sent queueC6W obsC6W
      (by decide) (by decide)).2 false RunPC.check StopPC.notCalled
      [true, false, true] (by decide) (by decide)⟩

/-! ### C5: the shutdown protocol can spin forever -/

theorem sysExec_fix_of_step_fix {F : Type} (s : StreamSys F)
    (h : ∀ b, sysStep s b = s) : ∀ sched : List Bool, sysExec s sched = s := by
  intro sched
  induction sched with
  | nil => rfl
  | cons b t ih =>
    show sysExec (sysStep s b) t = s
    rw [h b]
    exact ih

/-- C5 is violated by the code: from `stopScenario` — `stop()` invoked while
the backlog queue is full with two observations and the background task is
mid-encode on a third — the schedule `stop(); run; run` reaches a state in
which the task has observed the stop event at the top of its loop and exited
WITHOUT draining the queue, while `stop()` is inside the
`put(None, timeout=0.1)` retry loop.  From there every further interleaving
leaves the system unchanged: the queue stays full (no consumer is left), the
`put` raises `queue.Full` forever, and `stop()` never reaches `join`, the
pool shutdown, or its return.  This contradicts the specified guarantee that
`stop()` always terminates and refutes it at this concrete input. -/
theorem stop_deadlocks_on_full_queue (sched : List Bool) :
    sysExec stopScenario ([false, true, true] ++ sched)
      = { queue := [QItem.obsItem obsStop2, QItem.obsItem obsStop3],
          stopEvent := true, run := RunPC.exited, stop := StopPC.putLoop } ∧
    (sysExec stopScenario ([false, true, true] ++ sched)).stop
      ≠ StopPC.done := by
  have happ : sysExec stopScenario ([false, true, true] ++ sched)
      = sysExec (sysExec stopScenario [false, true, true]) sched := by
    unfold sysExec
    rw [List.foldl_append]
  have hD : sysExec stopScenario [false, true, true]
      = { queue := [QItem.obsItem obsStop2, QItem.obsItem obsStop3],
          stopEvent := true, run := RunPC.exited, stop := StopPC.putLoop } := by
    decide
  have hfix : ∀ b, sysStep
      ({ queue := [QItem.obsItem obsStop2, QItem.obsItem obsStop3],
         stopEvent := true, run := RunPC.exited,
         stop := StopPC.putLoop } : StreamSys Nat) b
      = { queue := [QItem.obsItem obsStop2, QItem.obsItem obsStop3],
          stopEvent := true, run := RunPC.exited, stop := StopPC.putLoop } := by
    decide
  rw [happ, hD, sysExec_fix_of_step_fix _ hfix sched]
  exact ⟨rfl, by decide⟩

/-! ### C3: resetting the watchdog needs the forward to succeed too -/

unseal Rat.add Rat.sub Rat.mul Rat.inv Rat.ofScientific in
/-- C3 counterexample: with a 1000 ms timeout, state
`{lastCommandTimestamp := 0, watchdogActive := true}` and an iteration whose
inbound message IS successfully decoded but whose `robot.send_action` raises
(`sendOk = false`, caught at line 187), the iteration leaves the state
exactly as it was — the timestamp is not updated to the post-forward sample
(5) and the watchdog flag stays `true` — because lines 182-183 run only
after `send_action` returns.  This falsifies the claim that the update
happens for any successfully decoded command independent of forwarding. -/
theorem watchdog_reset_requires_send_success_cex :
    (loopStep (C := Nat) 1000 ⟨0, true⟩
        ⟨CmdEvent.received 42 false, 5, 6⟩).1 = ⟨0, true⟩ ∧
    ¬ ((loopStep (C := Nat) 1000 ⟨0, true⟩
        ⟨CmdEvent.received 42 false, 5, 6⟩).1.watchdogActive = false) ∧
    ¬ ((loopStep (C := Nat) 1000 ⟨0, true⟩
        ⟨CmdEvent.received 42 false, 5, 6⟩).1.lastCmdTime = 5) := by
  decide

/-- C3 as amended: in every iteration whose inbound message is successfully
decoded AND whose forward via `send_action` returns, the loop updates
`lastCommandTimestamp` to the post-forward time sample and clears the
watchdog flag before the watchdog check (which can re-enter HALTED in the
same iteration only if the check time already exceeds the new timestamp by
more than the timeout); if the forward raises, the iteration behaves exactly
like a `zmq.Again` iteration, leaving timestamp and flag untouched. -/
theorem watchdog_reset_on_forwarded_command {C : Type} (wd : ℚ)
    (st : LoopState) (c : C) (tc tk : ℚ) :
    (loopStep wd st ⟨CmdEvent.received c true, tc, tk⟩).1.lastCmdTime = tc ∧
    applyCommand st (⟨CmdEvent.received c true, tc, tk⟩ : IterInput C)
      = ⟨tc, false⟩ ∧
    ((loopStep wd st ⟨CmdEvent.received c true, tc, tk⟩).1.watchdogActive
      = decide (wd / 1000 < tk - tc)) ∧
    loopStep wd st ⟨CmdEvent.received c false, tc, tk⟩
      = loopStep wd st (⟨CmdEvent.again, tc, tk⟩ : IterInput C) := by
  refine ⟨?_, rfl, ?_, rfl⟩
  · unfold loopStep
    split
    · rfl
    · rfl
  · unfold loopStep
    by_cases h : wd / 1000 < tk - tc
    · rw [if_pos ⟨h, rfl⟩]
      simp [applyCommand, h]
    · rw [if_neg ?_]
      · simp [applyCommand, h]
      · intro hc
        exact h hc.1

/-! ### C2 and C4: watchdog lemmas -/

theorem loopStep_fires {C : Type} (wd : ℚ) (st : LoopState) (inp : IterInput C)
    (h : wd / 1000 < inp.tChk - (applyCommand st inp).lastCmdTime ∧
      (applyCommand st inp).watchdogActive = false) :
    loopStep wd st inp
      = ({ applyCommand st inp with watchdogActive := true }, true) := by
  unfold loopStep
  rw [if_pos h]

theorem loopStep_nofire {C : Type} (wd : ℚ) (st : LoopState)
    (inp : IterInput C)
    (h : ¬ (wd / 1000 < inp.tChk - (applyCommand st inp).lastCmdTime ∧
      (applyCommand st inp).watchdogActive = false)) :
    loopStep wd st inp = (applyCommand st inp, false) := by
  unfold loopStep
  rw [if_neg h]

theorem applyCommand_not_success {C : Type} (st : LoopState)
    (inp : IterInput C) (h : isSuccess inp.ev = false) :
    applyCommand st inp = st := by
  unfold applyCommand
  cases hev : inp.ev with
  | again => rfl
  | decodeError => rfl
  | received c b =>
    cases b
    · rfl
    · rw [hev] at h
      simp [isSuccess] at h

theorem stopCount_cons {C : Type} (wd : ℚ) (st : LoopState)
    (inp : IterInput C) (t : List (IterInput C)) :
    stopCount wd st (inp :: t)
      = (if (loopStep wd st inp).2 then 1 else 0)
        + stopCount wd (loopStep wd st inp).1 t := rfl

theorem countSuccess_cons {C : Type} (inp : IterInput C)
    (t : List (IterInput C)) :
    countSuccess (inp :: t)
      = (if isSuccess inp.ev then 1 else 0) + countSuccess t := rfl

/-- Every `robot.stop_base()` call needs the flag to be down, the flag only
goes down again on a successfully forwarded command, so the number of stop
calls is bounded by one plus the number of successful commands (zero extra
if the watchdog is already active). -/
theorem stopCount_le_flag {C : Type} (wd : ℚ) :
    ∀ (inps : List (IterInput C)) (s : LoopState),
      stopCount wd s inps
        ≤ (if s.watchdogActive then 0 else 1) + countSuccess inps := by
  intro inps
  induction inps with
  | nil =>
    intro s
    exact Nat.zero_le _
  | cons inp t ih =>
    intro s
    rw [stopCount_cons, countSuccess_cons]
    by_cases hf : wd / 1000 < inp.tChk - (applyCommand s inp).lastCmdTime ∧
        (applyCommand s inp).watchdogActive = false
    · rw [loopStep_fires wd s inp hf]
      have hz1 : (if (({ applyCommand s inp with watchdogActive := true },
          true).2 = true) then (1 : Nat) else 0) = 1 := rfl
      have hz2 : ({ applyCommand s inp with watchdogActive := true },
          true).1 = { applyCommand s inp with watchdogActive := true } := rfl
      rw [hz1, hz2]
      have h1 := ih { applyCommand s inp with watchdogActive := true }
      have hz3 : (if ({ applyCommand s inp with
          watchdogActive := true } : LoopState).watchdogActive
          then (0 : Nat) else 1) = 0 := rfl
      rw [hz3, Nat.zero_add] at h1
      have h2 : (1 : Nat) ≤ (if s.watchdogActive then 0 else 1)
          + (if isSuccess inp.ev then 1 else 0) := by
        cases hs : isSuccess inp.ev
        · have ha : applyCommand s inp = s := applyCommand_not_success s inp hs
          have hact : s.watchdogActive = false := by
            rw [← ha]
            exact hf.2
          rw [hact]
          decide
        · have hz4 : (if (true = true) then (1 : Nat) else 0) = 1 := rfl
          rw [hz4]
          omega
      omega
    · rw [loopStep_nofire wd s inp hf]
      have hz1 : (if ((applyCommand s inp, false).2 = true)
          then (1 : Nat) else 0) = 0 := rfl
      have hz2 : (applyCommand s inp, false).1 = applyCommand s inp := rfl
      rw [hz1, hz2, Nat.zero_add]
      have h1 := ih (applyCommand s inp)
      cases hs : isSuccess inp.ev
      · have ha : applyCommand s inp = s := applyCommand_not_success s inp hs
        rw [ha] at h1 ⊢
        have hz3 : (if (false = true) then (1 : Nat) else 0) = 0 := rfl
        rw [hz3, Nat.zero_add]
        exact h1
      · have hz3 : (if (true = true) then (1 : Nat) else 0) = 1 := rfl
        rw [hz3]
        have h2 : (if (applyCommand s inp).watchdogActive
            then (0 : Nat) else 1) ≤ 1 := by
          split <;> omega
        omega

/-- With the watchdog already active and only `zmq.Again` iterations, no
further stop call is made. -/
theorem stopCount_zero_of_active_silence {C : Type} (wd : ℚ) :
    ∀ (inps : List (IterInput C)) (s : LoopState),
      s.watchdogActive = true →
      (∀ inp ∈ inps, inp.ev = CmdEvent.again) →
      stopCount wd s inps = 0 := by
  intro inps
  induction inps with
  | nil => intro s _ _; rfl
  | cons inp t ih =>
    intro s hact hall
    have hev : inp.ev = CmdEvent.again := hall inp (List.mem_cons_self _ _)
    have ha : applyCommand s inp = s := by
      unfold applyCommand
      rw [hev]
    have hnf : ¬ (wd / 1000 < inp.tChk - (applyCommand s inp).lastCmdTime ∧
        (applyCommand s inp).watchdogActive = false) := by
      rw [ha]
      intro hc
      have hcc := hc.2
      rw [hact] at hcc
      exact Bool.noConfusion hcc
    rw [stopCount_cons, loopStep_nofire wd s inp hnf, ha]
    have h1 : stopCount wd s t = 0 :=
      ih s hact (fun x hx => hall x (List.mem_cons_of_mem _ hx))
    simp [h1]

/-- On a silent trace starting from a normal state, the watchdog fires as
soon as some check exceeds the (fixed) last-command timestamp by more than
the timeout, and then never again. -/
theorem stopCount_one_of_silence {C : Type} (wd : ℚ) :
    ∀ (inps : List (IterInput C)) (s : LoopState),
      s.watchdogActive = false →
      (∀ inp ∈ inps, inp.ev = CmdEvent.again) →
      (∃ inp ∈ inps, wd / 1000 < inp.tChk - s.lastCmdTime) →
      stopCount wd s inps = 1 := by
  intro inps
  induction inps with
  | nil =>
    intro s _ _ hex
    rcases hex with ⟨x, hx, _⟩
    exact absurd hx (List.not_mem_nil x)
  | cons inp t ih =>
    intro s hact hall hex
    have hev : inp.ev = CmdEvent.again := hall inp (List.mem_cons_self _ _)
    have ha : applyCommand s inp = s := by
      unfold applyCommand
      rw [hev]
    by_cases hc : wd / 1000 < inp.tChk - s.lastCmdTime
    · have hf : wd / 1000 < inp.tChk - (applyCommand s inp).lastCmdTime ∧
          (applyCommand s inp).watchdogActive = false := by
        rw [ha]
        exact ⟨hc, hact⟩
      rw [stopCount_cons, loopStep_fires wd s inp hf, ha]
      have h0 : stopCount wd
          ({ s with watchdogActive := true } : LoopState) t = 0 :=
        stopCount_zero_of_active_silence wd t _ rfl
          (fun x hx => hall x (List.mem_cons_of_mem _ hx))
      simp [h0]
    · have hnf : ¬ (wd / 1000 < inp.tChk - (applyCommand s inp).lastCmdTime ∧
          (applyCommand s inp).watchdogActive = false) := by
        rw [ha]
        intro hcc
        exact hc hcc.1
      rw [stopCount_cons, loopStep_nofire wd s inp hnf, ha]
      have hex' : ∃ x ∈ t, wd / 1000 < x.tChk - s.lastCmdTime := by
        rcases hex with ⟨x, hx, hlt⟩
        rcases List.mem_cons.mp hx with h | h
        · rw [h] at hlt
          exact absurd hlt hc
        · exact ⟨x, h, hlt⟩
      have h1 : stopCount wd s t = 1 :=
        ih s hact (fun x hx => hall x (List.mem_cons_of_mem _ hx)) hex'
      simp [h1]

/-- C2: (a) over any list of iterations, the number of `robot.stop_base()`
calls is at most one more than the number of successfully forwarded
commands (and at most that number if the watchdog is already active) — in
particular a second stop call requires an intervening command that
returned the state to NORMAL; (b) on a continuous silence interval
(`zmq.Again` every iteration) that outlasts the timeout — some check time
exceeds `lastCommandTimestamp  + watchdogTimeout` — the loop calls
`stop_base` exactly once, on the NORMAL→HALTED transition, not once per
iteration. -/
theorem watchdog_stops_once_per_silence {C : Type} (wd : ℚ) (s : LoopState)
    (inps : List (IterInput C)) :
    stopCount wd s inps
      ≤ (if s.watchdogActive then 0 else 1) + countSuccess inps ∧
    (s.watchdogActive = false →
      (∀ inp ∈ inps, inp.ev = CmdEvent.again) →
      (∃ inp ∈ inps, wd / 1000 < inp.tChk - s.lastCmdTime) →
      stopCount wd s inps = 1) :=
  ⟨stopCount_le_flag wd inps s,
   fun hact hall hex => stopCount_one_of_silence wd inps s hact hall hex⟩

unseal Rat.add Rat.sub Rat.mul Rat.inv Rat.ofScientific in
/-- Witness for C2: a concrete 3-iteration silent trace with a 1000 ms
timeout, starting from the initial state; exactly one stop call is made. -/
theorem watchdog_stops_once_per_silence_witness :
    stopCount 1000 (⟨0, false⟩ : LoopState) silenceW
      ≤ (if (⟨0, false⟩ : LoopState).watchdogActive then 0 else 1)
        + countSuccess silenceW ∧
    stopCount 1000 (⟨0, false⟩ : LoopState) silenceW = 1 :=
  ⟨(watchdog_stops_once_per_silence 1000 ⟨0, false⟩ silenceW).1,
   (watchdog_stops_once_per_silence 1000 ⟨0, false⟩ silenceW).2 rfl
     (by decide) ⟨⟨CmdEvent.again, 0, 2⟩, by decide, by decide⟩⟩

theorem applyCommand_last {C : Type} (s : LoopState) (inp : IterInput C) :
    (applyCommand s inp).lastCmdTime = lastCmdAfter s.lastCmdTime [inp] := by
  unfold applyCommand lastCmdAfter
  cases hev : inp.ev with
  | again => rfl
  | decodeError => rfl
  | received c b => cases b <;> rfl

theorem applyCommand_active_false {C : Type} (s : LoopState)
    (inp : IterInput C) (h : s.watchdogActive = false) :
    (applyCommand s inp).watchdogActive = false := by
  unfold applyCommand
  cases hev : inp.ev with
  | again => exact h
  | decodeError => exact h
  | received c b =>
    cases b
    · exact h
    · rfl

/-- C4: if the watchdog starts inactive and every watchdog check happens
within `watchdogTimeout` of the most recent successfully forwarded command
(equivalently: successfully received commands are separated by strictly less
than the timeout, so every check falls inside such a gap), then the loop
never calls `robot.stop_base()` and the watchdog flag is `false` after every
prefix of the run — the state HALTED is unreachable. -/
theorem fast_commands_never_halted {C : Type} (wd : ℚ) :
    ∀ (inps : List (IterInput C)) (s : LoopState),
      s.watchdogActive = false →
      (∀ i : Fin inps.length,
        (inps.get i).tChk
          - lastCmdAfter s.lastCmdTime (inps.take (i.1 + 1)) ≤ wd / 1000) →
      stopCount wd s inps = 0 ∧
      (∀ n : Nat, (runLoop wd s (inps.take n)).watchdogActive = false) := by
  intro inps
  induction inps with
  | nil =>
    intro s hact _
    refine ⟨rfl, fun n => ?_⟩
    rw [List.take_nil]
    exact hact
  | cons inp t ih =>
    intro s hact hgap
    have h0 : inp.tChk - lastCmdAfter s.lastCmdTime [inp] ≤ wd / 1000 :=
      hgap ⟨0, Nat.succ_pos _⟩
    have hlast : (applyCommand s inp).lastCmdTime
        = lastCmdAfter s.lastCmdTime [inp] := applyCommand_last s inp
    have hactive : (applyCommand s inp).watchdogActive = false :=
      applyCommand_active_false s inp hact
    have hnf : ¬ (wd / 1000 < inp.tChk - (applyCommand s inp).lastCmdTime ∧
        (applyCommand s inp).watchdogActive = false) := by
      intro hc
      rw [hlast] at hc
      exact absurd hc.1 (not_lt.mpr h0)
    have hgap' : ∀ i : Fin t.length,
        (t.get i).tChk - lastCmdAfter (applyCommand s inp).lastCmdTime
          (t.take (i.1 + 1)) ≤ wd / 1000 := by
      intro i
      have h := hgap ⟨i.1 + 1, Nat.succ_lt_succ i.2⟩
      rw [hlast]
      exact h
    obtain ⟨hcnt, hall⟩ := ih (applyCommand s inp) hactive hgap'
    constructor
    · rw [stopCount_cons, loopStep_nofire wd s inp hnf]
      have hz1 : (if ((applyCommand s inp, false).2 = true)
          then (1 : Nat) else 0) = 0 := rfl
      have hz2 : (applyCommand s inp, false).1 = applyCommand s inp := rfl
      rw [hz1, hz2, Nat.zero_add]
      exact hcnt
    · intro n
      cases n with
      | zero => exact hact
      | succ m =>
        have htake : (inp :: t).take (m + 1) = inp :: t.take m := rfl
        rw [htake]
        have hrl : runLoop wd s (inp :: t.take m)
            = runLoop wd (loopStep wd s inp).1 (t.take m) := rfl
        rw [hrl, loopStep_nofire wd s inp hnf]
        exact hall m

unseal Rat.add Rat.sub Rat.mul Rat.inv Rat.ofScientific in
/-- Witness for C4: with a 1000 ms timeout, successful commands at 0.5s and
1.4s and checks at 0.6s, 1s and 1.5s, no stop call happens and the flag
stays down after every prefix. -/
theorem fast_commands_never_halted_witness :
    stopCount 1000 (⟨0, false⟩ : LoopState) fastCmdsW = 0 ∧
    (runLoop 1000 (⟨0, false⟩ : LoopState)
      (fastCmdsW.take 3)).watchdogActive = false :=
  ⟨(fast_commands_never_halted 1000 fastCmdsW ⟨0, false⟩ rfl (by decide)).1,
   (fast_commands_never_halted 1000 fastCmdsW ⟨0, false⟩ rfl (by decide)).2 3⟩

/-! ### C9: the decoded command is forwarded unchanged -/

theorem mem_keys_insertUpdate (d : List (String × ℚ)) (k : String) (v : ℚ)
    (x : String) :
    x ∈ (insertUpdate d k v).map Prod.fst ↔
      x ∈ d.map Prod.fst ∨ x = k := by
  induction d with
  | nil => simp [insertUpdate]
  | cons p t ih =>
    by_cases hp : p.1 = k
    · subst hp
      simp [insertUpdate]
      tauto
    · simp [insertUpdate, hp, ih]
      tauto

theorem nodup_keys_insertUpdate (d : List (String × ℚ)) (k : String) (v : ℚ)
    (h : (d.map Prod.fst).Nodup) :
    ((insertUpdate d k v).map Prod.fst).Nodup := by
  induction d with
  | nil => simp [insertUpdate]
  | cons p t ih =>
    rw [List.map_cons, List.nodup_cons] at h
    by_cases hp : p.1 = k
    · rw [insertUpdate, if_pos hp, List.map_cons, List.nodup_cons]
      exact ⟨hp ▸ h.1, h.2⟩
    · rw [insertUpdate, if_neg hp, List.map_cons, List.nodup_cons]
      refine ⟨?_, ih h.2⟩
      intro hmem
      rcases (mem_keys_insertUpdate t k v p.1).mp hmem with hm | hm
      · exact h.1 hm
      · exact hp hm

theorem insertUpdate_append (d : List (String × ℚ)) (k : String) (v : ℚ)
    (h : k ∉ d.map Prod.fst) : insertUpdate d k v = d ++ [(k, v)] := by
  induction d with
  | nil => rfl
  | cons p t ih =>
    rw [List.map_cons] at h
    have hp : ¬ p.1 = k := fun hh => h (by rw [hh]; exact List.mem_cons_self _ _)
    rw [insertUpdate, if_neg hp, List.cons_append,
      ih (fun hm => h (List.mem_cons_of_mem _ hm))]

theorem foldl_insertUpdate_append :
    ∀ (d acc : List (String × ℚ)),
      (∀ x ∈ d.map Prod.fst, x ∉ acc.map Prod.fst) →
      (d.map Prod.fst).Nodup →
      d.foldl (fun a p => insertUpdate a p.1 p.2) acc = acc ++ d := by
  intro d
  induction d with
  | nil => intro acc _ _; simp
  | cons p t ih =>
    intro acc hdisj hd
    rw [List.map_cons, List.nodup_cons] at hd
    rw [List.foldl_cons,
      insertUpdate_append acc p.1 p.2
        (hdisj p.1 (by rw [List.map_cons]; exact List.mem_cons_self _ _))]
    rw [ih (acc ++ [(p.1, p.2)]) ?_ hd.2]
    · rw [List.append_assoc]
      rfl
    · intro x hx
      rw [List.map_append]
      intro hmem
      rcases List.mem_append.mp hmem with hm | hm
      · exact hdisj x (by rw [List.map_cons]; exact List.mem_cons_of_mem _ hx) hm
      · simp at hm
        rw [hm] at hx
        exact hd.1 hx

/-- `dict(x)` on a decoded dict with pairwise-distinct keys returns an equal
dict. -/
theorem dictCopy_of_nodup (d : List (String × ℚ))
    (h : (d.map Prod.fst).Nodup) : dictCopy d = d := by
  unfold dictCopy
  have := foldl_insertUpdate_append d [] (by simp) h
  simpa using this

theorem parsePairs_nodup :
    ∀ (fuel : Nat) (l : List Char) (acc d : List (String × ℚ))
      (rest : List Char),
      (acc.map Prod.fst).Nodup → parsePairs fuel l acc = some (d, rest) →
      (d.map Prod.fst).Nodup := by
  intro fuel
  induction fuel with
  | zero =>
    intro l acc d rest _ h
    exact Option.noConfusion h
  | succ n ih =>
    intro l acc d rest hacc h
    unfold parsePairs at h
    split at h
    · exact Option.noConfusion h
    · split at h
      · exact Option.noConfusion h
      · split at h
        · split at h
          · exact Option.noConfusion h
          · split at h
            · injection h with h1
              injection h1 with h2 h3
              rw [← h2]
              exact nodup_keys_insertUpdate acc _ _ hacc
            · split at h
              · exact ih _ _ _ _ (nodup_keys_insertUpdate acc _ _ hacc) h
              · injection h with h1
                injection h1 with h2 h3
                rw [← h2]
                exact nodup_keys_insertUpdate acc _ _ hacc
        · exact Option.noConfusion h

theorem jsonLoadsObj_nodup (m : String) (d : List (String × ℚ))
    (h : jsonLoadsObj m = some d) : (d.map Prod.fst).Nodup := by
  unfold jsonLoadsObj at h
  split at h
  · exact Option.noConfusion h
  · split at h
    · split at h
      · exact Option.noConfusion h
      · split at h
        · split at h
          · injection h with h1
            rw [← h1]
            exact List.nodup_nil
          · exact Option.noConfusion h
        · split at h
          · exact Option.noConfusion h
          · split at h
            · exact Option.noConfusion h
            · split at h
              · split at h
                · injection h with h1
                  rw [← h1]
                  exact parsePairs_nodup _ _ [] _ _ List.Pairwise.nil
                    (by assumption)
                · exact Option.noConfusion h
              · exact Option.noConfusion h
    · exact Option.noConfusion h

/-- C9: whenever the received payload decodes as a JSON object (the command
schema), the `dict(...)` conversion at line 180 rebuilds exactly the decoded
mapping and `robot.send_action` is called with it unchanged: every key and
value of the decoded payload round-trips to the `send_action` argument. -/
theorem command_roundtrip_sendAction (m : String) (d : List (String × ℚ))
    (h : jsonLoadsObj m = some d) : sendActionArg (some m) = some d := by
  have h0 : sendActionArg (some m)
      = (match jsonLoadsObj m with
         | none => none
         | some d0 => some (dictCopy d0)) := rfl
  rw [h0, h]
  show some (dictCopy d) = some d
  rw [dictCopy_of_nodup d (jsonLoadsObj_nodup m d h)]

unseal Rat.add Rat.sub Rat.mul Rat.inv Rat.ofScientific in
/-- Witness for C9: the payload of the spec scenario decodes to
`[("joint1", 0.5)]` and `send_action` receives exactly that mapping. -/
theorem command_roundtrip_sendAction_witness :
    jsonLoadsObj "\x7b\"joint1\": 0.5\x7d" = some [("joint1", 1/2)] ∧
    sendActionArg (some "\x7b\"joint1\": 0.5\x7d") = some [("joint1", 1/2)] :=
  ⟨by decide, command_roundtrip_sendAction _ _ (by decide)⟩

end XLeRobotHost
